import Mathlib

/-!
Verification of the claude-sidecar message queue and hook dispatcher.

This development shallowly embeds `src/lib/queue.ts` (the `MessageQueue`
class: `acquireLock`, `releaseLock`, `addMessage`, `getAndClearMessages`,
`peekMessages`, `readMessages`, `getQueueSize`) and `src/lib/hook.ts`
(`handlePreToolStep`, `handlePostToolStep`).

The filesystem is modelled explicitly: the queue document is an optional
file content, the lock file an optional (holder pid, mtime) pair, and the
clock advances 100 ms per lock-retry backoff sleep (the only suspension
point in any operation).  Timestamps are modelled as epoch milliseconds
(`Nat`); the source stores `new Date().toISOString()`, and ISO-8601 UTC
strings are ordered exactly as the instants they denote, so order claims
transfer unchanged.

JSON semantics: `JSON.parse` rejects syntactically invalid text (the code
catches this and yields `[]`), but a document that is valid JSON while not
being an array (e.g. an object document) parses successfully and is
returned as-is by `readMessages`; the model keeps that case distinct.
-/

deriving instance DecidableEq for Except

namespace ClaudeSidecar

/-- A queued message, `{ text, timestamp }` in `queue.json`.  The timestamp
is modelled as epoch milliseconds. -/
structure Message where
  text : String
  timestamp : Nat
deriving DecidableEq

/-- Content of the queue document, classified by how `JSON.parse` treats it:
a serialized message array, syntactically invalid JSON (parse throws), or
valid JSON that is not an array (e.g. an object document such as `"\x7b\x7d"`,
whose `.length` is `undefined` and which has no `.push`). -/
inductive QContent where
  | ok (msgs : List Message)
  | badJson
  | jsonObj
deriving DecidableEq

/-- The JavaScript value `readMessages` actually returns: an array of
messages, or a non-array object passed through unchecked. -/
inductive JsVal where
  | arr (msgs : List Message)
  | obj
deriving DecidableEq

/-- The JavaScript value `getQueueSize` actually returns:
`messages.length` is a number for an array but `undefined` for an
object document. -/
inductive JsNum where
  | num (n : Nat)
  | undefinedNum
deriving DecidableEq

/-- The lock file: its content is the writer's pid, its mtime the creation
time. -/
structure LockInfo where
  holder : Nat
  mtime : Nat
deriving DecidableEq

/-- Filesystem state seen by one process: the queue document (`none` when
the file is absent), the lock file, the current clock (`Date.now()` in ms),
and whether `fs.writeFileSync` on the queue document currently succeeds
(`writeOk = false` models storage failure). -/
structure FsState where
  queueFile : Option QContent
  lockFile : Option LockInfo
  now : Nat
  writeOk : Bool
deriving DecidableEq

/-- Errors a queue operation can raise to its caller. -/
inductive QueueError where
  | lockUnavailable
  | typeError
  | writeError
deriving DecidableEq

/-- `JSON.parse` of the queue document as used by `readMessages`:
absent file or a parse exception yields `[]`; a parsed non-array value is
returned unchanged. -/
def readMessagesFile : Option QContent → JsVal
  | none => .arr []
  | some (.ok msgs) => .arr msgs
  | some .badJson => .arr []
  | some .jsonObj => .obj

/-- `MessageQueue.readMessages` (src/lib/queue.ts lines 99-109). -/
def readMessages (s : FsState) : JsVal :=
  readMessagesFile s.queueFile

/-- The retry loop of `MessageQueue.acquireLock` (src/lib/queue.ts lines
18-42).  Each iteration: if a lock file exists and its age
`Date.now() - mtimeMs` exceeds 5000 ms, unlink it (ignoring failure);
then attempt the exclusive create (`flag: "wx"`), which succeeds exactly
when no lock file exists; on failure sleep 100 ms and retry. -/
def acquireLockGo (pid : Nat) : Nat → FsState → Bool × FsState
  | 0, s => (false, s)
  | k + 1, s =>
    let s1 : FsState :=
      match s.lockFile with
      | some l => if s.now - l.mtime > 5000 then { s with lockFile := none } else s
      | none => s
    match s1.lockFile with
    | some _ => acquireLockGo pid k { s1 with now := s1.now + 100 }
    | none => (true, { s1 with lockFile := some ⟨pid, s1.now⟩ })

/-- `MessageQueue.acquireLock(maxRetries)`; the operations call it with the
default `maxRetries = 20`. -/
def acquireLock (pid : Nat) (s : FsState) (maxRetries : Nat) : Bool × FsState :=
  acquireLockGo pid maxRetries s

/-- `MessageQueue.releaseLock` (src/lib/queue.ts lines 44-50): unlink the
lock file, swallowing the error when it is already gone. -/
def releaseLock (s : FsState) : FsState :=
  { s with lockFile := none }

/-- `MessageQueue.addMessage` (src/lib/queue.ts lines 52-67).  On a
non-array document, `messages.push` throws a `TypeError`; the `finally`
still releases the lock. -/
def addMessage (pid : Nat) (text : String) (s : FsState) :
    Except QueueError Unit × FsState :=
  match acquireLock pid s 20 with
  | (false, s1) => (Except.error .lockUnavailable, s1)
  | (true, s1) =>
    match readMessages s1 with
    | .obj => (Except.error .typeError, releaseLock s1)
    | .arr msgs =>
      if s1.writeOk then
        (Except.ok (),
          releaseLock { s1 with
            queueFile := some (.ok (msgs ++ [⟨text, s1.now⟩])) })
      else
        (Except.error .writeError, releaseLock s1)

/-- `MessageQueue.getAndClearMessages` (src/lib/queue.ts lines 69-85).
Note `messages.length > 0` is `undefined > 0 = false` for a non-array
document, so that case skips the clearing write and returns the object. -/
def getAndClearMessages (pid : Nat) (s : FsState) :
    Except QueueError JsVal × FsState :=
  match acquireLock pid s 20 with
  | (false, s1) => (Except.error .lockUnavailable, s1)
  | (true, s1) =>
    match readMessages s1 with
    | .arr msgs =>
      if msgs.length > 0 then
        if s1.writeOk then
          (Except.ok (.arr msgs),
            releaseLock { s1 with queueFile := some (.ok []) })
        else
          (Except.error .writeError, releaseLock s1)
      else
        (Except.ok (.arr msgs), releaseLock s1)
    | .obj => (Except.ok .obj, releaseLock s1)

/-- `MessageQueue.peekMessages` (src/lib/queue.ts lines 87-97). -/
def peekMessages (pid : Nat) (s : FsState) :
    Except QueueError JsVal × FsState :=
  match acquireLock pid s 20 with
  | (false, s1) => (Except.error .lockUnavailable, s1)
  | (true, s1) => (Except.ok (readMessages s1), releaseLock s1)

/-- `MessageQueue.getQueueSize` (src/lib/queue.ts lines 111-123): an
unlocked read returning `messages.length`; absent file or a parse
exception yields 0, but a parsed non-array document yields `undefined`. -/
def getQueueSize (s : FsState) : JsNum :=
  match s.queueFile with
  | none => .num 0
  | some (.ok msgs) => .num msgs.length
  | some .badJson => .num 0
  | some .jsonObj => .undefinedNum

/-- One numbered feedback line as produced by the hook handlers:
the template literal is
backtick [ dollar-idx+1 / dollar-length ] space dollar-text backtick. -/
def numberLine (n : Nat) (idx : Nat) (text : String) : String :=
  "[" ++ toString (idx + 1) ++ "/" ++ toString n ++ "] " ++ text

/-- The indexed `messages.forEach((msg, idx) => ...)` loop of both hook
handlers, emitting one `numberLine` per message. -/
def hookBodyGo (n : Nat) : Nat → List Message → List String
  | _, [] => []
  | idx, m :: rest => numberLine n idx m.text :: hookBodyGo n (idx + 1) rest

/-- The full block both hook handlers print for a non-empty drain:
banner, numbered lines, footer (src/lib/hook.ts lines 12-19). -/
def hookBody (msgs : List Message) : List String :=
  "=== User Feedback from Claude Sidecar ===" ::
    hookBodyGo msgs.length 0 msgs ++
    ["=========================================="]

/-- Observable outcome of a hook invocation: the lines written to each
stream and the process exit code. -/
structure HookOutcome where
  stdoutLines : List String
  stderrLines : List String
  exitCode : Nat
deriving DecidableEq

/-- `handlePreToolStep` (src/lib/hook.ts lines 4-30): drain; on N >= 1
messages print the block to stderr and exit 2; on an empty drain, a
non-array drain (`undefined > 0` is false), or any thrown error
(swallowed by the catch), print nothing and exit 0. -/
def handlePreToolStep (pid : Nat) (s : FsState) : HookOutcome × FsState :=
  match getAndClearMessages pid s with
  | (Except.error _, s1) => (⟨[], [], 0⟩, s1)
  | (Except.ok (.arr msgs), s1) =>
    if msgs.length > 0 then (⟨[], hookBody msgs, 2⟩, s1)
    else (⟨[], [], 0⟩, s1)
  | (Except.ok .obj, s1) => (⟨[], [], 0⟩, s1)

/-- `handlePostToolStep` (the post-step hook variant, same structure as
`handlePreToolStep` but printing to stdout and always exiting 0). -/
def handlePostToolStep (pid : Nat) (s : FsState) : HookOutcome × FsState :=
  match getAndClearMessages pid s with
  | (Except.error _, s1) => (⟨[], [], 0⟩, s1)
  | (Except.ok (.arr msgs), s1) =>
    if msgs.length > 0 then (⟨hookBody msgs, [], 0⟩, s1)
    else (⟨[], [], 0⟩, s1)
  | (Except.ok .obj, s1) => (⟨[], [], 0⟩, s1)

/-- Spec-side rendering of the hook output block, written from the spec's
words: "a fixed-format banner, one numbered line per message
(`[i/N] <text>`, 1-indexed, in drain order), and a fixed-format footer".
Defined over the index range, to be compared with the code-side
`hookBody`. -/
def specHookLines (texts : List String) : List String :=
  "=== User Feedback from Claude Sidecar ===" ::
    ((List.range texts.length).map fun i =>
      "[" ++ toString (i + 1) ++ "/" ++ toString texts.length ++ "] " ++
        texts.getD i "") ++
    ["=========================================="]

/-- Serialized enqueue calls: each call `(text, time)` is issued at wall
clock `time` (the producer's `Date.now()` at that call), with no
interference between calls. -/
def runEnqueues (pid : Nat) (calls : List (String × Nat)) (s : FsState) :
    FsState :=
  calls.foldl (fun st c => (addMessage pid c.1 { st with now := c.2 }).2) s

/-! ### Helper lemmas about lock acquisition -/

theorem acquireLockGo_preserves (pid : Nat) :
    ∀ (k : Nat) (s : FsState),
      (acquireLockGo pid k s).2.queueFile = s.queueFile ∧
      (acquireLockGo pid k s).2.writeOk = s.writeOk := by
  intro k
  induction k with
  | zero => intro s; exact ⟨rfl, rfl⟩
  | succ n ih =>
    intro s
    cases hl : s.lockFile with
    | none => simp [acquireLockGo, hl]
    | some l =>
      by_cases hst : s.now - l.mtime > 5000
      · simp [acquireLockGo, hl, hst]
      · simpa [acquireLockGo, hl, hst] using ih { s with now := s.now + 100 }

theorem acquireLock_free (pid k : Nat) (s : FsState) (h : s.lockFile = none) :
    acquireLock pid s (k + 1) =
      (true, { s with lockFile := some ⟨pid, s.now⟩ }) := by
  simp [acquireLock, acquireLockGo, h]

theorem acquireLockGo_fresh_fails (pid : Nat) :
    ∀ (k : Nat) (s : FsState) (l : LockInfo), s.lockFile = some l →
      s.now + 100 * k ≤ l.mtime + 5100 →
      acquireLockGo pid k s = (false, { s with now := s.now + 100 * k }) := by
  intro k
  induction k with
  | zero => intro s l hl hb; simp [acquireLockGo]
  | succ n ih =>
    intro s l hl hb
    have hns : ¬ s.now - l.mtime > 5000 := by omega
    have hrec := ih { s with now := s.now + 100 } l hl
      (by show s.now + 100 + 100 * n ≤ l.mtime + 5100; omega)
    have harith : s.now + 100 + 100 * n = s.now + 100 * (n + 1) := by ring
    simp only [hl] at hrec
    simp only [acquireLockGo, hl, hns, if_false]
    rw [hrec]
    simp [harith]

theorem peekMessages_free (pid : Nat) (s : FsState) (h : s.lockFile = none) :
    peekMessages pid s =
      (Except.ok (readMessages s),
        releaseLock { s with lockFile := some ⟨pid, s.now⟩ }) := by
  simp [peekMessages, acquireLock_free pid 19 s h, readMessages]

theorem peekMessages_fst_free (pid : Nat) (s : FsState)
    (h : s.lockFile = none) :
    (peekMessages pid s).1 = Except.ok (readMessages s) := by
  rw [peekMessages_free pid s h]

/-- C1 counterexample: on a queue document that is valid JSON but not a
message array (e.g. an object document), `getAndClearMessages` succeeds
yet returns that object unchanged and does not clear it, so the peek
issued immediately afterwards does not return the empty sequence. -/
theorem drain_then_peek_cex :
    (getAndClearMessages 1 ⟨some .jsonObj, none, 0, true⟩).1 =
      Except.ok .obj ∧
    (peekMessages 1
        (getAndClearMessages 1 ⟨some .jsonObj, none, 0, true⟩).2).1 ≠
      Except.ok (JsVal.arr []) := by decide

/-- C1 (amended): for every queue state whose document is absent, a
serialized message array, or syntactically invalid JSON (i.e. excluding
documents that are valid JSON but not an array), a successful
`getAndClearMessages` returns exactly what `readMessages` saw and a peek
issued immediately afterwards returns the empty sequence; in particular a
drain of an empty queue returns the empty sequence and leaves the queue
empty. -/
theorem drain_then_peek_empty (pid : Nat) (s : FsState) (v : JsVal)
    (hobj : s.queueFile ≠ some .jsonObj)
    (hsucc : (getAndClearMessages pid s).1 = Except.ok v) :
    v = readMessages s ∧
    (peekMessages pid (getAndClearMessages pid s).2).1 =
      Except.ok (JsVal.arr []) := by
  rcases hacq : acquireLock pid s 20 with ⟨b, s1⟩
  have hpres := acquireLockGo_preserves pid 20 s
  rw [show acquireLockGo pid 20 s = (b, s1) from hacq] at hpres
  have hq1 : s1.queueFile = s.queueFile := hpres.1
  cases b with
  | false => simp [getAndClearMessages, hacq] at hsucc
  | true =>
    have hrm : readMessages s1 = readMessages s := by
      simp [readMessages, hq1]
    cases hq : s.queueFile with
    | none =>
      have hv : readMessages s1 = JsVal.arr [] := by
        simp [readMessages, hq1, hq, readMessagesFile]
      simp only [getAndClearMessages, hacq, hv, List.length_nil,
        gt_iff_lt, lt_irrefl, if_false] at hsucc ⊢
      refine ⟨by simp_all [readMessages, hq, readMessagesFile], ?_⟩
      rw [peekMessages_fst_free pid _ rfl]
      simp [readMessages, releaseLock, hq1, hq, readMessagesFile]
    | some c =>
      cases c with
      | jsonObj => exact absurd hq hobj
      | badJson =>
        have hv : readMessages s1 = JsVal.arr [] := by
          simp [readMessages, hq1, hq, readMessagesFile]
        simp only [getAndClearMessages, hacq, hv, List.length_nil,
          gt_iff_lt, lt_irrefl, if_false] at hsucc ⊢
        refine ⟨by simp_all [readMessages, hq, readMessagesFile], ?_⟩
        rw [peekMessages_fst_free pid _ rfl]
        simp [readMessages, releaseLock, hq1, hq, readMessagesFile]
      | ok msgs =>
        have hv : readMessages s1 = JsVal.arr msgs := by
          simp [readMessages, hq1, hq, readMessagesFile]
        by_cases hlen : msgs.length > 0
        · cases hwk : s1.writeOk with
          | false =>
            simp [getAndClearMessages, hacq, hv, hlen, hwk] at hsucc
          | true =>
            simp only [getAndClearMessages, hacq, hv, hlen, if_true,
              hwk] at hsucc ⊢
            refine ⟨by simp_all [readMessages, hq, readMessagesFile], ?_⟩
            rw [peekMessages_fst_free pid _ rfl]
            simp [readMessages, releaseLock, readMessagesFile]
        · have hnil : msgs = [] := by
            cases msgs with
            | nil => rfl
            | cons a t => simp at hlen
          subst hnil
          simp only [getAndClearMessages, hacq, hv, List.length_nil,
            gt_iff_lt, lt_irrefl, if_false] at hsucc ⊢
          refine ⟨by simp_all [readMessages, hq, readMessagesFile], ?_⟩
          rw [peekMessages_fst_free pid _ rfl]
          simp [readMessages, releaseLock, hq1, hq, readMessagesFile]

/-- C1 witness: a concrete drain on a one-message queue satisfies the
hypotheses and the conclusion of `drain_then_peek_empty`. -/
theorem drain_then_peek_witness :
    ((⟨some (.ok [⟨"hi", 5⟩]), none, 0, true⟩ : FsState).queueFile ≠
      some .jsonObj) ∧
    ((getAndClearMessages 1 ⟨some (.ok [⟨"hi", 5⟩]), none, 0, true⟩).1 =
      Except.ok (.arr [⟨"hi", 5⟩])) ∧
    (JsVal.arr [⟨"hi", 5⟩] =
        readMessages ⟨some (.ok [⟨"hi", 5⟩]), none, 0, true⟩ ∧
      (peekMessages 1
          (getAndClearMessages 1
            ⟨some (.ok [⟨"hi", 5⟩]), none, 0, true⟩).2).1 =
        Except.ok (JsVal.arr [])) :=
  ⟨by decide, by decide,
    drain_then_peek_empty 1 _ _ (by decide) (by decide)⟩

/-- C4 counterexample: a queue document that is valid JSON but not a
message array (an object document) "fails to parse as the expected
message-sequence format", yet `readMessages` returns it unchanged rather
than an empty sequence, and `getQueueSize` returns `undefined`
(`messages.length` of a non-array), not 0. -/
theorem read_invalid_cex :
    readMessages ⟨some .jsonObj, none, 0, true⟩ ≠ JsVal.arr [] ∧
    getQueueSize ⟨some .jsonObj, none, 0, true⟩ ≠ JsNum.num 0 := by decide

/-- C4 (amended): `readMessages` returns the empty sequence, and
`getQueueSize` returns 0, whenever the queue document is absent or its
contents are syntactically invalid JSON (i.e. `JSON.parse` throws);
neither ever throws to the caller (both are total in the model).  Content
that parses as JSON but is not a message array is instead passed through
unchecked. -/
theorem read_empty_on_absent_or_unparsable (s : FsState)
    (h : s.queueFile = none ∨ s.queueFile = some .badJson) :
    readMessages s = JsVal.arr [] ∧ getQueueSize s = JsNum.num 0 := by
  rcases h with h | h <;>
    simp [readMessages, readMessagesFile, getQueueSize, h]

/-- C4 witness: the absent-file case evaluated concretely. -/
theorem read_empty_witness :
    ((⟨none, none, 0, true⟩ : FsState).queueFile = none ∨
      (⟨none, none, 0, true⟩ : FsState).queueFile = some .badJson) ∧
    (readMessages ⟨none, none, 0, true⟩ = JsVal.arr [] ∧
      getQueueSize ⟨none, none, 0, true⟩ = JsNum.num 0) :=
  ⟨Or.inl rfl, read_empty_on_absent_or_unparsable _ (Or.inl rfl)⟩

/-- C5: a pre-existing lock file whose age exceeds the 5000 ms staleness
threshold is deleted by lock acquisition before the exclusive create, so
the acquirer succeeds on its first attempt (no sleep), and an enqueue
issued against such a stale lock succeeds rather than exhausting its
retries. -/
theorem stale_lock_enqueue (pid : Nat) (txt : String) (s : FsState)
    (l : LockInfo) (hl : s.lockFile = some l)
    (hstale : s.now - l.mtime > 5000)
    (hq : s.queueFile ≠ some .jsonObj) (hw : s.writeOk = true) :
    acquireLock pid s 20 = (true, { s with lockFile := some ⟨pid, s.now⟩ }) ∧
    (addMessage pid txt s).1 = Except.ok () := by
  have hacq :
      acquireLock pid s 20 =
        (true, { s with lockFile := some ⟨pid, s.now⟩ }) := by
    simp [acquireLock, acquireLockGo, hl, hstale]
  refine ⟨hacq, ?_⟩
  cases hqf : s.queueFile with
  | none => simp [addMessage, hacq, readMessages, readMessagesFile, hqf, hw]
  | some c =>
    cases c with
    | ok msgs =>
      simp [addMessage, hacq, readMessages, readMessagesFile, hqf, hw]
    | badJson =>
      simp [addMessage, hacq, readMessages, readMessagesFile, hqf, hw]
    | jsonObj => exact absurd hqf hq

/-- C5 witness: a 6-second-old lock held by pid 9 is reclaimed by pid 1,
whose enqueue then succeeds. -/
theorem stale_lock_enqueue_witness :
    ((⟨some (.ok []), some ⟨9, 0⟩, 6000, true⟩ : FsState).lockFile =
      some ⟨9, 0⟩) ∧
    ((⟨some (.ok []), some ⟨9, 0⟩, 6000, true⟩ : FsState).now - 0 > 5000) ∧
    (acquireLock 1 ⟨some (.ok []), some ⟨9, 0⟩, 6000, true⟩ 20 =
        (true, ⟨some (.ok []), some ⟨1, 6000⟩, 6000, true⟩) ∧
      (addMessage 1 "m" ⟨some (.ok []), some ⟨9, 0⟩, 6000, true⟩).1 =
        Except.ok ()) :=
  ⟨by decide, by decide,
    stale_lock_enqueue 1 "m" _ ⟨9, 0⟩ (by decide) (by decide) (by decide)
      (by decide)⟩

/-- C7: whenever `getAndClearMessages` fails (with any error) or returns
an empty sequence, both hook variants emit nothing on either stream and
exit with code 0. -/
theorem hook_fail_open (pid : Nat) (s : FsState)
    (h : (∃ e, (getAndClearMessages pid s).1 = Except.error e) ∨
      (getAndClearMessages pid s).1 = Except.ok (JsVal.arr [])) :
    (handlePreToolStep pid s).1 = ⟨[], [], 0⟩ ∧
    (handlePostToolStep pid s).1 = ⟨[], [], 0⟩ := by
  rcases hgc : getAndClearMessages pid s with ⟨r, s1⟩
  simp only [hgc] at h
  rcases h with ⟨e, he⟩ | he <;> subst he <;>
    simp [handlePreToolStep, handlePostToolStep, hgc]

/-- C7 witness: the empty-queue case evaluated concretely. -/
theorem hook_fail_open_witness :
    ((getAndClearMessages 1 ⟨none, none, 0, true⟩).1 =
      Except.ok (JsVal.arr [])) ∧
    ((handlePreToolStep 1 ⟨none, none, 0, true⟩).1 = ⟨[], [], 0⟩ ∧
      (handlePostToolStep 1 ⟨none, none, 0, true⟩).1 = ⟨[], [], 0⟩) :=
  ⟨by decide, hook_fail_open 1 _ (Or.inr (by decide))⟩

/-- C8: when a pre-existing lock stays fresh throughout the retry budget
(20 attempts, 100 ms backoff, so any lock at most 3100 ms old at the
first attempt), every queue operation fails with the distinguishable
`lockUnavailable` error and neither reads nor writes the queue document:
both the document and the foreign lock are left untouched. -/
theorem lock_exhaustion_no_access (pid : Nat) (txt : String) (s : FsState)
    (l : LockInfo) (hl : s.lockFile = some l)
    (hfresh : s.now ≤ l.mtime + 3100) :
    (addMessage pid txt s).1 = Except.error .lockUnavailable ∧
    (addMessage pid txt s).2.queueFile = s.queueFile ∧
    (addMessage pid txt s).2.lockFile = s.lockFile ∧
    (getAndClearMessages pid s).1 = Except.error .lockUnavailable ∧
    (getAndClearMessages pid s).2.queueFile = s.queueFile ∧
    (getAndClearMessages pid s).2.lockFile = s.lockFile ∧
    (peekMessages pid s).1 = Except.error .lockUnavailable ∧
    (peekMessages pid s).2.queueFile = s.queueFile ∧
    (peekMessages pid s).2.lockFile = s.lockFile := by
  have hacq : acquireLock pid s 20 =
      (false, { s with now := s.now + 100 * 20 }) :=
    acquireLockGo_fresh_fails pid 20 s l hl (by omega)
  simp [addMessage, getAndClearMessages, peekMessages, hacq, hl]

/-- C8 witness: a fresh foreign lock makes all three operations fail with
`lockUnavailable`, leaving document and lock untouched. -/
theorem lock_exhaustion_witness :
    ((⟨some (.ok []), some ⟨9, 0⟩, 0, true⟩ : FsState).lockFile =
      some ⟨9, 0⟩) ∧
    ((⟨some (.ok []), some ⟨9, 0⟩, 0, true⟩ : FsState).now ≤ 0 + 3100) ∧
    ((addMessage 1 "m" ⟨some (.ok []), some ⟨9, 0⟩, 0, true⟩).1 =
      Except.error .lockUnavailable ∧
    (addMessage 1 "m" ⟨some (.ok []), some ⟨9, 0⟩, 0, true⟩).2.queueFile =
      some (.ok []) ∧
    (addMessage 1 "m" ⟨some (.ok []), some ⟨9, 0⟩, 0, true⟩).2.lockFile =
      some ⟨9, 0⟩ ∧
    (getAndClearMessages 1 ⟨some (.ok []), some ⟨9, 0⟩, 0, true⟩).1 =
      Except.error .lockUnavailable ∧
    (getAndClearMessages 1
        ⟨some (.ok []), some ⟨9, 0⟩, 0, true⟩).2.queueFile =
      some (.ok []) ∧
    (getAndClearMessages 1
        ⟨some (.ok []), some ⟨9, 0⟩, 0, true⟩).2.lockFile =
      some ⟨9, 0⟩ ∧
    (peekMessages 1 ⟨some (.ok []), some ⟨9, 0⟩, 0, true⟩).1 =
      Except.error .lockUnavailable ∧
    (peekMessages 1 ⟨some (.ok []), some ⟨9, 0⟩, 0, true⟩).2.queueFile =
      some (.ok []) ∧
    (peekMessages 1 ⟨some (.ok []), some ⟨9, 0⟩, 0, true⟩).2.lockFile =
      some ⟨9, 0⟩) :=
  ⟨by decide, by decide,
    lock_exhaustion_no_access 1 "m" _ ⟨9, 0⟩ (by decide) (by decide)⟩

/-- C9: every operation that acquires the lock ends with the lock file
absent on every exit path — including the write-failure and
non-array-document (TypeError) paths, where the operation throws — and
release is idempotent: releasing with the lock file already missing is
not an error and changes nothing. -/
theorem lock_released_all_paths (pid : Nat) (txt : String) (s : FsState)
    (hacq : (acquireLock pid s 20).1 = true) :
    (addMessage pid txt s).2.lockFile = none ∧
    (getAndClearMessages pid s).2.lockFile = none ∧
    (peekMessages pid s).2.lockFile = none ∧
    (∀ s2 : FsState, s2.lockFile = none → releaseLock s2 = s2) := by
  rcases h : acquireLock pid s 20 with ⟨b, s1⟩
  rw [h] at hacq
  simp only at hacq
  subst hacq
  refine ⟨?_, ?_, ?_, ?_⟩
  · cases hv : readMessages s1 with
    | arr msgs =>
      cases hw : s1.writeOk <;> simp [addMessage, h, hv, hw, releaseLock]
    | obj => simp [addMessage, h, hv, releaseLock]
  · cases hv : readMessages s1 with
    | arr msgs =>
      by_cases hlen : msgs.length > 0
      · cases hw : s1.writeOk <;>
          simp [getAndClearMessages, h, hv, hw, hlen, releaseLock]
      · simp [getAndClearMessages, h, hv, hlen, releaseLock]
    | obj => simp [getAndClearMessages, h, hv, releaseLock]
  · simp [peekMessages, h, releaseLock]
  · intro s2 h2
    cases s2
    simp only at h2
    subst h2
    rfl

/-- C9 witness: a state whose queue write fails (storage failure) still
ends each operation with the lock released. -/
theorem lock_released_witness :
    ((acquireLock 1 ⟨some (.ok [⟨"m", 0⟩]), none, 0, false⟩ 20).1 =
      true) ∧
    ((addMessage 1 "x" ⟨some (.ok [⟨"m", 0⟩]), none, 0, false⟩).2.lockFile =
      none ∧
    (getAndClearMessages 1
        ⟨some (.ok [⟨"m", 0⟩]), none, 0, false⟩).2.lockFile = none ∧
    (peekMessages 1
        ⟨some (.ok [⟨"m", 0⟩]), none, 0, false⟩).2.lockFile = none ∧
    (∀ s2 : FsState, s2.lockFile = none → releaseLock s2 = s2)) :=
  ⟨by decide, lock_released_all_paths 1 "x" _ (by decide)⟩

/-- C10: `releaseLock` unconditionally deletes whatever lock file exists,
never checking that the caller is the recorded holder; so after a holder
`pidA`'s stale lock is reclaimed and re-created by `pidB`, `pidA`'s
release (run with no argument, exactly as in the source) deletes `pidB`'s
lock file. -/
theorem release_deletes_any_lock (pidA pidB : Nat) (s : FsState) (t : Nat)
    (hl : s.lockFile = some ⟨pidA, t⟩) (hstale : s.now - t > 5000)
    (_hne : pidB ≠ pidA) :
    (acquireLock pidB s 20).2.lockFile = some ⟨pidB, s.now⟩ ∧
    (releaseLock (acquireLock pidB s 20).2).lockFile = none ∧
    (∀ s2 : FsState, (releaseLock s2).lockFile = none) := by
  have hacq :
      acquireLock pidB s 20 =
        (true, { s with lockFile := some ⟨pidB, s.now⟩ }) := by
    simp [acquireLock, acquireLockGo, hl, hstale]
  simp [hacq, releaseLock]

/-- C10 witness: pid 1's stale lock is reclaimed by pid 2; pid 1's
subsequent release then deletes pid 2's lock file. -/
theorem release_deletes_any_lock_witness :
    ((⟨none, some ⟨1, 0⟩, 6000, true⟩ : FsState).lockFile =
      some ⟨1, 0⟩) ∧
    ((⟨none, some ⟨1, 0⟩, 6000, true⟩ : FsState).now - 0 > 5000) ∧
    (2 ≠ 1) ∧
    ((acquireLock 2 ⟨none, some ⟨1, 0⟩, 6000, true⟩ 20).2.lockFile =
      some ⟨2, 6000⟩ ∧
    (releaseLock
        (acquireLock 2 ⟨none, some ⟨1, 0⟩, 6000, true⟩ 20).2).lockFile =
      none ∧
    (∀ s2 : FsState, (releaseLock s2).lockFile = none)) :=
  ⟨by decide, by decide, by decide,
    release_deletes_any_lock 1 2 _ 0 (by decide) (by decide) (by decide)⟩

theorem hookBodyGo_eq (n : Nat) :
    ∀ (msgs : List Message) (i : Nat),
      hookBodyGo n i msgs = (List.range msgs.length).map
        (fun j => numberLine n (i + j) ((msgs.map Message.text).getD j "")) := by
  intro msgs
  induction msgs with
  | nil => intro i; simp [hookBodyGo]
  | cons m rest ih =>
    intro i
    have htail := ih (i + 1)
    simp only [hookBodyGo, htail, List.length_cons, List.range_succ_eq_map,
      List.map_cons, List.map_map, List.cons.injEq]
    refine ⟨by simp, ?_⟩
    apply List.map_congr_left
    intro j hj
    have harith : i + 1 + j = i + (j + 1) := by omega
    simp [Function.comp, harith]

theorem hookBody_eq_spec (msgs : List Message) :
    hookBody msgs = specHookLines (msgs.map Message.text) := by
  simp only [hookBody, specHookLines, hookBodyGo_eq msgs.length msgs 0,
    List.length_map, numberLine, Nat.zero_add]

theorem getAndClear_free_ok (pid : Nat) (s : FsState) (msgs : List Message)
    (hq : s.queueFile = some (.ok msgs)) (hl : s.lockFile = none)
    (hw : s.writeOk = true) (hne : msgs.length > 0) :
    getAndClearMessages pid s =
      (Except.ok (.arr msgs),
        { s with queueFile := some (.ok []), lockFile := none }) := by
  have hacq := acquireLock_free pid 19 s hl
  simp [getAndClearMessages, hacq, readMessages, readMessagesFile, hq, hne,
    hw, releaseLock]

/-- C2: on a drained sequence of N >= 1 messages, the pre-step hook
variant emits exactly the banner, one `[i/N] <text>` line per message
(1-indexed, drain order), and the footer to stderr and exits 2, while the
post-step variant emits the same block to stdout and exits 0; in both
variants a subsequent peek returns the empty sequence. -/
theorem hook_dispatch_format (pid : Nat) (s : FsState)
    (msgs : List Message) (hq : s.queueFile = some (.ok msgs))
    (hl : s.lockFile = none) (hw : s.writeOk = true)
    (hne : 1 ≤ msgs.length) :
    (handlePreToolStep pid s).1 =
      ⟨[], specHookLines (msgs.map Message.text), 2⟩ ∧
    (peekMessages pid (handlePreToolStep pid s).2).1 =
      Except.ok (JsVal.arr []) ∧
    (handlePostToolStep pid s).1 =
      ⟨specHookLines (msgs.map Message.text), [], 0⟩ ∧
    (peekMessages pid (handlePostToolStep pid s).2).1 =
      Except.ok (JsVal.arr []) := by
  have hlen : msgs.length > 0 := by omega
  have hgc := getAndClear_free_ok pid s msgs hq hl hw hlen
  have hpre : handlePreToolStep pid s =
      (⟨[], hookBody msgs, 2⟩,
        { s with queueFile := some (.ok []), lockFile := none }) := by
    simp [handlePreToolStep, hgc, hlen]
  have hpost : handlePostToolStep pid s =
      (⟨hookBody msgs, [], 0⟩,
        { s with queueFile := some (.ok []), lockFile := none }) := by
    simp [handlePostToolStep, hgc, hlen]
  refine ⟨?_, ?_, ?_, ?_⟩
  · rw [hpre, hookBody_eq_spec]
  · rw [hpre, peekMessages_fst_free pid _ rfl]
    simp [readMessages, readMessagesFile]
  · rw [hpost, hookBody_eq_spec]
  · rw [hpost, peekMessages_fst_free pid _ rfl]
    simp [readMessages, readMessagesFile]

/-- C2 witness: the spec scenario — "First feedback" and "Second
feedback" queued, then both hook variants dispatched. -/
theorem hook_dispatch_format_witness :
    ((⟨some (.ok [⟨"First feedback", 1⟩, ⟨"Second feedback", 2⟩]), none, 3,
        true⟩ : FsState).queueFile =
      some (.ok [⟨"First feedback", 1⟩, ⟨"Second feedback", 2⟩])) ∧
    (1 ≤ ([⟨"First feedback", 1⟩, ⟨"Second feedback", 2⟩] :
      List Message).length) ∧
    ((handlePreToolStep 1
        ⟨some (.ok [⟨"First feedback", 1⟩, ⟨"Second feedback", 2⟩]), none,
          3, true⟩).1 =
      ⟨[], specHookLines
        (([⟨"First feedback", 1⟩, ⟨"Second feedback", 2⟩] :
          List Message).map Message.text), 2⟩ ∧
    (peekMessages 1
        (handlePreToolStep 1
          ⟨some (.ok [⟨"First feedback", 1⟩, ⟨"Second feedback", 2⟩]),
            none, 3, true⟩).2).1 = Except.ok (JsVal.arr []) ∧
    (handlePostToolStep 1
        ⟨some (.ok [⟨"First feedback", 1⟩, ⟨"Second feedback", 2⟩]), none,
          3, true⟩).1 =
      ⟨specHookLines
        (([⟨"First feedback", 1⟩, ⟨"Second feedback", 2⟩] :
          List Message).map Message.text), [], 0⟩ ∧
    (peekMessages 1
        (handlePostToolStep 1
          ⟨some (.ok [⟨"First feedback", 1⟩, ⟨"Second feedback", 2⟩]),
            none, 3, true⟩).2).1 = Except.ok (JsVal.arr [])) :=
  ⟨by decide, by decide,
    hook_dispatch_format 1 _ _ (by decide) (by decide) (by decide)
      (by decide)⟩

theorem addMessage_free_ok (pid : Nat) (txt : String) (s : FsState)
    (msgs : List Message) (hq : s.queueFile = some (.ok msgs))
    (hl : s.lockFile = none) (hw : s.writeOk = true) :
    addMessage pid txt s =
      (Except.ok (),
        { s with queueFile := some (.ok (msgs ++ [⟨txt, s.now⟩])),
                 lockFile := none }) := by
  have hacq := acquireLock_free pid 19 s hl
  simp [addMessage, hacq, readMessages, readMessagesFile, hq, hw,
    releaseLock]

theorem addMessage_free_none (pid : Nat) (txt : String) (s : FsState)
    (hq : s.queueFile = none) (hl : s.lockFile = none)
    (hw : s.writeOk = true) :
    addMessage pid txt s =
      (Except.ok (),
        { s with queueFile := some (.ok [⟨txt, s.now⟩]),
                 lockFile := none }) := by
  have hacq := acquireLock_free pid 19 s hl
  simp [addMessage, hacq, readMessages, readMessagesFile, hq, hw,
    releaseLock]

theorem runEnqueues_ok (pid : Nat) :
    ∀ (calls : List (String × Nat)) (s : FsState) (msgs : List Message),
      s.queueFile = some (.ok msgs) → s.lockFile = none →
      s.writeOk = true →
      (runEnqueues pid calls s).queueFile =
        some (.ok (msgs ++ calls.map (fun c => ⟨c.1, c.2⟩))) ∧
      (runEnqueues pid calls s).lockFile = none ∧
      (runEnqueues pid calls s).writeOk = true := by
  intro calls
  induction calls with
  | nil => intro s msgs hq hl hw; simp [runEnqueues, hq, hl, hw]
  | cons c rest ih =>
    intro s msgs hq hl hw
    have hstep := addMessage_free_ok pid c.1 { s with now := c.2 } msgs
      hq hl hw
    have hfold : runEnqueues pid (c :: rest) s =
        runEnqueues pid rest
          ((addMessage pid c.1 { s with now := c.2 }).2) := by
      simp [runEnqueues]
    have h1 : ((addMessage pid c.1 { s with now := c.2 }).2).queueFile =
        some (.ok (msgs ++ [⟨c.1, c.2⟩])) := by rw [hstep]
    have h2 : ((addMessage pid c.1 { s with now := c.2 }).2).lockFile =
        none := by rw [hstep]
    have h3 : ((addMessage pid c.1 { s with now := c.2 }).2).writeOk =
        true := by rw [hstep]; exact hw
    have hrest := ih _ (msgs ++ [⟨c.1, c.2⟩]) h1 h2 h3
    rw [hfold]
    simpa using hrest

theorem runEnqueues_read (pid : Nat) (calls : List (String × Nat))
    (s : FsState)
    (hq : s.queueFile = none ∨ s.queueFile = some (.ok []))
    (hl : s.lockFile = none) (hw : s.writeOk = true) :
    readMessages (runEnqueues pid calls s) =
      .arr (calls.map fun c => ⟨c.1, c.2⟩) ∧
    (runEnqueues pid calls s).lockFile = none := by
  rcases hq with hq | hq
  · cases calls with
    | nil => simp [runEnqueues, readMessages, readMessagesFile, hq, hl]
    | cons c rest =>
      have hstep := addMessage_free_none pid c.1 { s with now := c.2 }
        hq hl hw
      have hfold : runEnqueues pid (c :: rest) s =
          runEnqueues pid rest
            ((addMessage pid c.1 { s with now := c.2 }).2) := by
        simp [runEnqueues]
      have h1 : ((addMessage pid c.1 { s with now := c.2 }).2).queueFile =
          some (.ok [⟨c.1, c.2⟩]) := by rw [hstep]
      have h2 : ((addMessage pid c.1 { s with now := c.2 }).2).lockFile =
          none := by rw [hstep]
      have h3 : ((addMessage pid c.1 { s with now := c.2 }).2).writeOk =
          true := by rw [hstep]; exact hw
      have hrest := runEnqueues_ok pid rest _ [⟨c.1, c.2⟩] h1 h2 h3
      rw [hfold]
      refine ⟨?_, hrest.2.1⟩
      simp [readMessages, hrest.1, readMessagesFile]
  · have h := runEnqueues_ok pid calls s [] hq hl hw
    refine ⟨?_, h.2.1⟩
    simp [readMessages, h.1, readMessagesFile]

/-- C6: N serialized `addMessage` calls, the i-th issued at wall clock
`tᵢ`, applied to an initially-empty queue with no lock contention, leave
exactly those N messages in call order, each carrying the timestamp
assigned at its enqueue; when the call instants are non-decreasing so are
the stored timestamps. -/
theorem serialized_enqueues_peek (pid : Nat) (calls : List (String × Nat))
    (s : FsState)
    (hq : s.queueFile = none ∨ s.queueFile = some (.ok []))
    (hl : s.lockFile = none) (hw : s.writeOk = true) :
    (peekMessages pid (runEnqueues pid calls s)).1 =
      Except.ok (.arr (calls.map fun c => ⟨c.1, c.2⟩)) ∧
    (List.Chain' (· ≤ ·) (calls.map Prod.snd) →
      List.Chain' (· ≤ ·)
        ((calls.map fun c => (⟨c.1, c.2⟩ : Message)).map
          Message.timestamp)) := by
  have h := runEnqueues_read pid calls s hq hl hw
  refine ⟨?_, ?_⟩
  · rw [peekMessages_fst_free pid _ h.2, h.1]
  · intro hmono
    simpa [List.map_map, Function.comp] using hmono

/-- C6 witness: two enqueues at instants 1 and 2 on an absent queue
document. -/
theorem serialized_enqueues_witness :
    ((⟨none, none, 0, true⟩ : FsState).queueFile = none ∨
      (⟨none, none, 0, true⟩ : FsState).queueFile = some (.ok [])) ∧
    ((peekMessages 1
        (runEnqueues 1 [("a", 1), ("b", 2)] ⟨none, none, 0, true⟩)).1 =
      Except.ok (.arr ([("a", 1), ("b", 2)].map fun c => ⟨c.1, c.2⟩)) ∧
    (List.Chain' (· ≤ ·)
        (([("a", 1), ("b", 2)] : List (String × Nat)).map Prod.snd) →
      List.Chain' (· ≤ ·)
        ((([("a", 1), ("b", 2)] : List (String × Nat)).map
          fun c => (⟨c.1, c.2⟩ : Message)).map Message.timestamp))) :=
  ⟨Or.inl rfl,
    serialized_enqueues_peek 1 [("a", 1), ("b", 2)] _ (Or.inl rfl) rfl
      rfl⟩

/-! ### Two concurrent drains: interleaving model

Two OS processes run `getAndClearMessages` against the same filesystem.
Each process executes a sequence of atomic filesystem actions: the
exclusive create of the lock file (one `writeFileSync` with `flag: "wx"`,
the code's sole mutual-exclusion primitive), the read of the queue
document, the conditional clearing write, and the unlink of the lock
file.  A schedule is an arbitrary interleaving (list of process ids); a
failed create sleeps 100 ms, which advances the shared clock.  The
stale-reclaim branch of `acquireLock` is included (modelled inside the
same scheduler step as the following create); `drain_lock_age_bound`
below shows it is unreachable in this scenario, because a lock created
during the run can age at most 100 ms per failed attempt of the single
other process, i.e. at most 2000 ms < 5000 ms. -/

/-- Program counter of one drain process, carrying the value read from
the queue document once the read has happened. -/
inductive DPC where
  | acq (k : Nat)
  | readStep
  | clearStep (v : JsVal)
  | relStep (v : JsVal)
  | finished (v : JsVal)
  | lockFailed
deriving DecidableEq

/-- Shared system state for the two racing drains: queue document, lock
file (owner id and mtime), clock, and each process's program counter. -/
structure Sys where
  fs : Option QContent
  lock : Option (Bool × Nat)
  clock : Nat
  pcF : DPC
  pcT : DPC
deriving DecidableEq

def getPc (s : Sys) (i : Bool) : DPC :=
  if i then s.pcT else s.pcF

def setPc (s : Sys) (i : Bool) (p : DPC) : Sys :=
  if i then { s with pcT := p } else { s with pcF := p }

/-- Whether `messages.length > 0` holds for the read value
(`undefined > 0` is false for a non-array). -/
def jsLenPos : JsVal → Bool
  | .arr msgs => msgs.length > 0
  | .obj => false

/-- One atomic action of process `i`, following `getAndClearMessages`:
retry loop of `acquireLock` (stale check + exclusive create, sleeping
100 ms on failure), then read, then the conditional clearing write, then
the release in the `finally`. -/
def dstep (s : Sys) (i : Bool) : Sys :=
  match getPc s i with
  | .acq 0 => setPc s i .lockFailed
  | .acq (k + 1) =>
    match s.lock with
    | some (_, t) =>
      if s.clock - t > 5000 then
        setPc { s with lock := some (i, s.clock) } i .readStep
      else
        setPc { s with clock := s.clock + 100 } i (.acq k)
    | none => setPc { s with lock := some (i, s.clock) } i .readStep
  | .readStep => setPc s i (.clearStep (readMessagesFile s.fs))
  | .clearStep v =>
    if jsLenPos v then
      setPc { s with fs := some (.ok []) } i (.relStep v)
    else
      setPc s i (.relStep v)
  | .relStep v => setPc { s with lock := none } i (.finished v)
  | .finished _ => s
  | .lockFailed => s

/-- Run a schedule (interleaving) of the two drain processes. -/
def runSched (s : Sys) (sched : List Bool) : Sys :=
  sched.foldl dstep s

/-- Initial state for the race: a queue holding exactly one message, no
lock, both processes about to enter `acquireLock` with the default 20
retries. -/
def dinit (m : Message) : Sys :=
  ⟨some (.ok [m]), none, 0, .acq 20, .acq 20⟩

def isTerminal : DPC → Bool
  | .finished _ => true
  | .lockFailed => true
  | _ => false

/-- The sequence of messages a terminated drain returned (none when it
threw `lockUnavailable` or returned a non-array value). -/
def resultMsgs : DPC → List Message
  | .finished (.arr l) => l
  | _ => []

theorem getPc_setPc_same (s : Sys) (i : Bool) (p : DPC) :
    getPc (setPc s i p) i = p := by
  cases i <;> simp [getPc, setPc]

theorem getPc_setPc_not (s : Sys) (i : Bool) (p : DPC) :
    getPc (setPc s i p) (!i) = getPc s (!i) := by
  cases i <;> simp [getPc, setPc]

theorem setPc_fs (s : Sys) (i : Bool) (p : DPC) :
    (setPc s i p).fs = s.fs := by
  cases i <;> simp [setPc]

theorem setPc_lock (s : Sys) (i : Bool) (p : DPC) :
    (setPc s i p).lock = s.lock := by
  cases i <;> simp [setPc]

theorem setPc_clock (s : Sys) (i : Bool) (p : DPC) :
    (setPc s i p).clock = s.clock := by
  cases i <;> simp [setPc]

theorem bool_eq_or (j i : Bool) : j = i ∨ j = !i := by
  cases j <;> cases i <;> simp

/-- Process is inside the lock-protected critical section. -/
def inCS : DPC → Prop
  | .readStep => True
  | .clearStep _ => True
  | .relStep _ => True
  | _ => False

/-- Remaining retry budget when in the acquisition loop (0 otherwise). -/
def acqRem : DPC → Nat
  | .acq k => k
  | _ => 0

/-- Program counters possible before anyone has read the document. -/
def preRead (p : DPC) : Prop :=
  (∃ k, p = .acq k) ∨ p = .readStep ∨ p = .lockFailed

/-- Program counters of the losing process while the winner is still in
its critical section. -/
def loserIdle (p : DPC) : Prop :=
  (∃ k, p = .acq k) ∨ p = .lockFailed

/-- Program counters of the losing process once the winner has finished:
it may run its own (empty) drain pass. -/
def loserAfter (p : DPC) : Prop :=
  (∃ k, p = .acq k) ∨ p = .lockFailed ∨ p = .readStep ∨
    p = .clearStep (.arr []) ∨ p = .relStep (.arr []) ∨
    p = .finished (.arr [])

/-- Data-flow phases of the race on a one-message queue: either nobody
has read yet, or a winner `w` has read `[m]` and is successively
clearing, releasing, or done, while the loser is still acquiring (or has
given up), or — once the winner is done — drains the now-empty queue. -/
def Phase (m : Message) (s : Sys) : Prop :=
  (s.fs = some (.ok [m]) ∧ ∀ j, preRead (getPc s j)) ∨
  (∃ w, getPc s w = .clearStep (.arr [m]) ∧ s.fs = some (.ok [m]) ∧
    loserIdle (getPc s (!w))) ∨
  (∃ w, getPc s w = .relStep (.arr [m]) ∧ s.fs = some (.ok []) ∧
    loserIdle (getPc s (!w))) ∨
  (∃ w, getPc s w = .finished (.arr [m]) ∧ s.fs = some (.ok []) ∧
    loserAfter (getPc s (!w)))

/-- Inductive invariant of the two-drain race: lock/critical-section
correspondence, a freshness bound implying the stale branch never fires,
retry-budget bookkeeping (a process can only burn retries, or give up,
while the other is in its critical section or already finished), and the
data-flow phase. -/
structure Inv (m : Message) (s : Sys) : Prop where
  ownerCS : ∀ j t, s.lock = some (j, t) → inCS (getPc s j)
  csOwner : ∀ j, inCS (getPc s j) → ∃ t, s.lock = some (j, t)
  fresh : ∀ j t, s.lock = some (j, t) →
    t ≤ s.clock ∧ s.clock ≤ t + 100 * (20 - acqRem (getPc s (!j)))
  acqLe : ∀ j k, getPc s j = .acq k → k ≤ 20
  failedWait : ∀ j, getPc s j = .lockFailed →
    inCS (getPc s (!j)) ∨ ∃ v, getPc s (!j) = .finished v
  acqWait : ∀ j k, getPc s j = .acq k → k < 20 →
    inCS (getPc s (!j)) ∨ ∃ v, getPc s (!j) = .finished v
  phase : Phase m s

theorem inv_init (m : Message) : Inv m (dinit m) := by
  refine ⟨?_, ?_, ?_, ?_, ?_, ?_, ?_⟩
  · intro j t hj; simp [dinit] at hj
  · intro j hj
    cases j <;> simp [dinit, getPc, inCS] at hj
  · intro j t hj; simp [dinit] at hj
  · intro j k hj
    cases j <;> simp [dinit, getPc] at hj <;> omega
  · intro j hj
    cases j <;> simp [dinit, getPc] at hj
  · intro j k hj hk
    cases j <;> simp [dinit, getPc] at hj <;> omega
  · exact Or.inl ⟨rfl, fun j => by
      cases j <;> exact Or.inl ⟨20, rfl⟩⟩

theorem getPc_mk_lock (s : Sys) (l : Option (Bool × Nat)) (j : Bool) :
    getPc { s with lock := l } j = getPc s j := by cases j <;> rfl

theorem getPc_mk_clock (s : Sys) (c : Nat) (j : Bool) :
    getPc { s with clock := c } j = getPc s j := by cases j <;> rfl

theorem getPc_mk_fs (s : Sys) (f : Option QContent) (j : Bool) :
    getPc { s with fs := f } j = getPc s j := by cases j <;> rfl

theorem mk_lock_lock (s : Sys) (l : Option (Bool × Nat)) :
    ({ s with lock := l } : Sys).lock = l := rfl

theorem mk_lock_clock (s : Sys) (l : Option (Bool × Nat)) :
    ({ s with lock := l } : Sys).clock = s.clock := rfl

theorem mk_lock_fs (s : Sys) (l : Option (Bool × Nat)) :
    ({ s with lock := l } : Sys).fs = s.fs := rfl

theorem mk_clock_clock (s : Sys) (c : Nat) :
    ({ s with clock := c } : Sys).clock = c := rfl

theorem mk_clock_lock (s : Sys) (c : Nat) :
    ({ s with clock := c } : Sys).lock = s.lock := rfl

theorem mk_clock_fs (s : Sys) (c : Nat) :
    ({ s with clock := c } : Sys).fs = s.fs := rfl

theorem mk_fs_fs (s : Sys) (f : Option QContent) :
    ({ s with fs := f } : Sys).fs = f := rfl

theorem mk_fs_lock (s : Sys) (f : Option QContent) :
    ({ s with fs := f } : Sys).lock = s.lock := rfl

theorem mk_fs_clock (s : Sys) (f : Option QContent) :
    ({ s with fs := f } : Sys).clock = s.clock := rfl

theorem inv_acq0 (m : Message) (s : Sys) (i : Bool) (h : Inv m s)
    (hpc : getPc s i = .acq 0) : Inv m (setPc s i .lockFailed) := by
  obtain ⟨hOwner, hCS, hFresh, hAcq, hFail, hWait, hPhase⟩ := h
  refine ⟨?_, ?_, ?_, ?_, ?_, ?_, ?_⟩
  · intro j t hj
    rw [setPc_lock] at hj
    have hin := hOwner j t hj
    rcases bool_eq_or j i with rfl | rfl
    · rw [hpc] at hin; simp [inCS] at hin
    · rw [getPc_setPc_not]; exact hin
  · intro j hj
    rcases bool_eq_or j i with rfl | rfl
    · rw [getPc_setPc_same] at hj; simp [inCS] at hj
    · rw [getPc_setPc_not] at hj
      rw [setPc_lock]
      exact hCS _ hj
  · intro j t hj
    rw [setPc_lock] at hj
    rw [setPc_clock]
    have hold := hFresh j t hj
    rcases bool_eq_or (!j) i with hji | hji
    · rw [hji, getPc_setPc_same]
      rw [hji, hpc] at hold
      simpa [acqRem] using hold
    · rw [hji, getPc_setPc_not, ← hji]
      exact hold
  · intro j k hj
    rcases bool_eq_or j i with rfl | rfl
    · rw [getPc_setPc_same] at hj; exact absurd hj (by simp)
    · rw [getPc_setPc_not] at hj; exact hAcq _ k hj
  · intro j hj
    rcases bool_eq_or j i with rfl | rfl
    · rw [getPc_setPc_not]
      exact hWait j 0 hpc (by omega)
    · rw [getPc_setPc_not] at hj
      have := hFail _ hj
      rw [Bool.not_not, hpc] at this
      rcases this with hc | ⟨v, hv⟩
      · simp [inCS] at hc
      · simp at hv
  · intro j k hj hk
    rcases bool_eq_or j i with rfl | rfl
    · rw [getPc_setPc_same] at hj; exact absurd hj (by simp)
    · rw [getPc_setPc_not] at hj
      have := hWait _ k hj hk
      rw [Bool.not_not, hpc] at this
      rcases this with hc | ⟨v, hv⟩
      · simp [inCS] at hc
      · simp at hv
  · rcases hPhase with ⟨hfs, hpre⟩ | ⟨w, hw, hfs, hlos⟩ | ⟨w, hw, hfs, hlos⟩ | ⟨w, hw, hfs, hlos⟩
    · refine Or.inl ⟨by rw [setPc_fs]; exact hfs, ?_⟩
      intro j
      rcases bool_eq_or j i with rfl | rfl
      · rw [getPc_setPc_same]; exact Or.inr (Or.inr rfl)
      · rw [getPc_setPc_not]; exact hpre _
    · rcases bool_eq_or w i with rfl | rfl
      · rw [hpc] at hw; simp at hw
      · refine Or.inr (Or.inl ⟨!i, ?_, by rw [setPc_fs]; exact hfs, ?_⟩)
        · rw [getPc_setPc_not]; exact hw
        · rw [Bool.not_not, getPc_setPc_same]
          exact Or.inr rfl
    · rcases bool_eq_or w i with rfl | rfl
      · rw [hpc] at hw; simp at hw
      · refine Or.inr (Or.inr (Or.inl ⟨!i, ?_, by rw [setPc_fs]; exact hfs, ?_⟩))
        · rw [getPc_setPc_not]; exact hw
        · rw [Bool.not_not, getPc_setPc_same]
          exact Or.inr rfl
    · rcases bool_eq_or w i with rfl | rfl
      · rw [hpc] at hw; simp at hw
      · refine Or.inr (Or.inr (Or.inr ⟨!i, ?_, by rw [setPc_fs]; exact hfs, ?_⟩))
        · rw [getPc_setPc_not]; exact hw
        · rw [Bool.not_not, getPc_setPc_same]
          exact Or.inr (Or.inl rfl)

theorem inv_acq_succ (m : Message) (s : Sys) (i : Bool) (k : Nat)
    (h : Inv m s) (hpc : getPc s i = .acq (k + 1)) :
    Inv m (dstep s i) := by
  obtain ⟨hOwner, hCS, hFresh, hAcq, hFail, hWait, hPhase⟩ := h
  cases hlk : s.lock with
  | none =>
    have hd : dstep s i = setPc { s with lock := some (i, s.clock) } i .readStep := by
      simp [dstep, hpc, hlk]
    rw [hd]
    refine ⟨?_, ?_, ?_, ?_, ?_, ?_, ?_⟩
    · intro j t hj
      rw [setPc_lock] at hj
      simp only [Option.some.injEq, Prod.mk.injEq] at hj
      obtain ⟨rfl, rfl⟩ := hj
      rw [getPc_setPc_same]
      simp [inCS]
    · intro j hj
      rcases bool_eq_or j i with rfl | rfl
      · exact ⟨s.clock, by rw [setPc_lock]⟩
      · rw [getPc_setPc_not, getPc_mk_lock] at hj
        obtain ⟨t, hlold⟩ := hCS _ hj
        rw [hlk] at hlold
        cases hlold
    · intro j t hj
      rw [setPc_lock] at hj
      simp only [Option.some.injEq, Prod.mk.injEq] at hj
      obtain ⟨rfl, rfl⟩ := hj
      simp only [setPc_clock, mk_lock_clock]
      exact ⟨le_refl _, Nat.le_add_right _ _⟩
    · intro j k2 hj
      rcases bool_eq_or j i with rfl | rfl
      · rw [getPc_setPc_same] at hj; exact absurd hj (by simp)
      · rw [getPc_setPc_not, getPc_mk_lock] at hj
        exact hAcq _ k2 hj
    · intro j hj
      rcases bool_eq_or j i with rfl | rfl
      · rw [getPc_setPc_same] at hj; exact absurd hj (by simp)
      · rw [Bool.not_not, getPc_setPc_same]
        exact Or.inl (by simp [inCS])
    · intro j k2 hj hk2
      rcases bool_eq_or j i with rfl | rfl
      · rw [getPc_setPc_same] at hj; exact absurd hj (by simp)
      · rw [Bool.not_not, getPc_setPc_same]
        exact Or.inl (by simp [inCS])
    · rcases hPhase with ⟨hfs, hpre⟩ | ⟨w, hw, hfs, hlos⟩ | ⟨w, hw, hfs, hlos⟩ | ⟨w, hw, hfs, hlos⟩
      · refine Or.inl ⟨by rw [setPc_fs]; exact hfs, ?_⟩
        intro j
        rcases bool_eq_or j i with rfl | rfl
        · rw [getPc_setPc_same]; exact Or.inr (Or.inl rfl)
        · rw [getPc_setPc_not, getPc_mk_lock]; exact hpre _
      · obtain ⟨t0, hl0⟩ := hCS w (by rw [hw]; simp [inCS])
        rw [hlk] at hl0; cases hl0
      · obtain ⟨t0, hl0⟩ := hCS w (by rw [hw]; simp [inCS])
        rw [hlk] at hl0; cases hl0
      · rcases bool_eq_or w i with rfl | rfl
        · rw [hpc] at hw; simp at hw
        · refine Or.inr (Or.inr (Or.inr ⟨!i, ?_, by rw [setPc_fs]; exact hfs, ?_⟩))
          · rw [getPc_setPc_not, getPc_mk_lock]; exact hw
          · rw [Bool.not_not, getPc_setPc_same]
            exact Or.inr (Or.inr (Or.inl rfl))
  | some p =>
    obtain ⟨j0, t0⟩ := p
    have hj0 : j0 = !i := by
      rcases bool_eq_or j0 i with rfl | rfl
      · have := hOwner j0 t0 hlk
        rw [hpc] at this
        simp [inCS] at this
      · rfl
    subst hj0
    have hfr := hFresh (!i) t0 hlk
    have hns : ¬ s.clock - t0 > 5000 := by
      rcases hfr with ⟨h1, h2⟩
      have : 20 - acqRem (getPc s !(!i)) ≤ 20 := by omega
      omega
    have hd : dstep s i = setPc { s with clock := s.clock + 100 } i (.acq k) := by
      simp [dstep, hpc, hlk, hns]
    rw [hd]
    have hle : k + 1 ≤ 20 := hAcq i (k + 1) hpc
    refine ⟨?_, ?_, ?_, ?_, ?_, ?_, ?_⟩
    · intro j t hj
      rw [setPc_lock] at hj
      have hin := hOwner j t hj
      rcases bool_eq_or j i with rfl | rfl
      · rw [hpc] at hin; simp [inCS] at hin
      · rw [getPc_setPc_not, getPc_mk_clock]; exact hin
    · intro j hj
      rcases bool_eq_or j i with rfl | rfl
      · rw [getPc_setPc_same] at hj; simp [inCS] at hj
      · rw [getPc_setPc_not, getPc_mk_clock] at hj
        obtain ⟨t, hlold⟩ := hCS _ hj
        exact ⟨t, by rw [setPc_lock]; exact hlold⟩
    · intro j t hj
      rw [setPc_lock] at hj
      have hin := hOwner j t hj
      rcases bool_eq_or j i with rfl | rfl
      · rw [hpc] at hin; simp [inCS] at hin
      · rw [hlk] at hj
        simp only [Option.some.injEq, Prod.mk.injEq] at hj
        obtain ⟨-, rfl⟩ := hj
        rw [Bool.not_not, getPc_setPc_same]
        simp only [setPc_clock, mk_clock_clock, acqRem]
        have hold := hfr
        rw [Bool.not_not, hpc] at hold
        simp only [acqRem] at hold
        constructor <;> omega
    · intro j k2 hj
      rcases bool_eq_or j i with rfl | rfl
      · rw [getPc_setPc_same] at hj
        simp at hj
        omega
      · rw [getPc_setPc_not, getPc_mk_clock] at hj
        exact hAcq _ k2 hj
    · intro j hj
      rcases bool_eq_or j i with rfl | rfl
      · rw [getPc_setPc_same] at hj; exact absurd hj (by simp)
      · rw [getPc_setPc_not, getPc_mk_clock] at hj
        have := hOwner (!i) t0 hlk
        rw [hj] at this
        simp [inCS] at this
    · intro j k2 hj hk2
      rcases bool_eq_or j i with rfl | rfl
      · rw [getPc_setPc_not, getPc_mk_clock]
        exact Or.inl (hOwner (!j) t0 hlk)
      · rw [getPc_setPc_not, getPc_mk_clock] at hj
        have := hOwner (!i) t0 hlk
        rw [hj] at this
        simp [inCS] at this
    · rcases hPhase with ⟨hfs, hpre⟩ | ⟨w, hw, hfs, hlos⟩ | ⟨w, hw, hfs, hlos⟩ | ⟨w, hw, hfs, hlos⟩
      · refine Or.inl ⟨by rw [setPc_fs]; exact hfs, ?_⟩
        intro j
        rcases bool_eq_or j i with rfl | rfl
        · rw [getPc_setPc_same]; exact Or.inl ⟨k, rfl⟩
        · rw [getPc_setPc_not, getPc_mk_clock]; exact hpre _
      · rcases bool_eq_or w i with rfl | rfl
        · rw [hpc] at hw; simp at hw
        · refine Or.inr (Or.inl ⟨!i, ?_, by rw [setPc_fs]; exact hfs, ?_⟩)
          · rw [getPc_setPc_not, getPc_mk_clock]; exact hw
          · rw [Bool.not_not, getPc_setPc_same]
            exact Or.inl ⟨k, rfl⟩
      · rcases bool_eq_or w i with rfl | rfl
        · rw [hpc] at hw; simp at hw
        · refine Or.inr (Or.inr (Or.inl ⟨!i, ?_, by rw [setPc_fs]; exact hfs, ?_⟩))
          · rw [getPc_setPc_not, getPc_mk_clock]; exact hw
          · rw [Bool.not_not, getPc_setPc_same]
            exact Or.inl ⟨k, rfl⟩
      · rcases bool_eq_or w i with rfl | rfl
        · rw [hpc] at hw; simp at hw
        · refine Or.inr (Or.inr (Or.inr ⟨!i, ?_, by rw [setPc_fs]; exact hfs, ?_⟩))
          · rw [getPc_setPc_not, getPc_mk_clock]; exact hw
          · rw [Bool.not_not, getPc_setPc_same]
            exact Or.inl ⟨k, rfl⟩

theorem bool_ne_not (i : Bool) : i ≠ !i := by cases i <;> simp

theorem inv_read (m : Message) (s : Sys) (i : Bool)
    (h : Inv m s) (hpc : getPc s i = .readStep) :
    Inv m (dstep s i) := by
  obtain ⟨hOwner, hCS, hFresh, hAcq, hFail, hWait, hPhase⟩ := h
  obtain ⟨t0, hlk⟩ := hCS i (by rw [hpc]; simp [inCS])
  have hnotCS : ¬ inCS (getPc s (!i)) := by
    intro hc
    obtain ⟨t1, h1⟩ := hCS (!i) hc
    rw [hlk] at h1
    simp only [Option.some.injEq, Prod.mk.injEq] at h1
    exact bool_ne_not i h1.1
  have hd : dstep s i = setPc s i (.clearStep (readMessagesFile s.fs)) := by
    simp [dstep, hpc]
  rw [hd]
  refine ⟨?_, ?_, ?_, ?_, ?_, ?_, ?_⟩
  · intro j t hj
    rw [setPc_lock, hlk] at hj
    simp only [Option.some.injEq, Prod.mk.injEq] at hj
    obtain ⟨rfl, rfl⟩ := hj
    rw [getPc_setPc_same]
    simp [inCS]
  · intro j hj
    rcases bool_eq_or j i with rfl | rfl
    · exact ⟨t0, by rw [setPc_lock]; exact hlk⟩
    · rw [getPc_setPc_not] at hj
      exact absurd hj hnotCS
  · intro j t hj
    rw [setPc_lock, hlk] at hj
    simp only [Option.some.injEq, Prod.mk.injEq] at hj
    obtain ⟨rfl, rfl⟩ := hj
    rw [getPc_setPc_not, setPc_clock]
    exact hFresh i t0 hlk
  · intro j k hj
    rcases bool_eq_or j i with rfl | rfl
    · rw [getPc_setPc_same] at hj; exact absurd hj (by simp)
    · rw [getPc_setPc_not] at hj
      exact hAcq _ k hj
  · intro j hj
    rcases bool_eq_or j i with rfl | rfl
    · rw [getPc_setPc_same] at hj; exact absurd hj (by simp)
    · rw [Bool.not_not, getPc_setPc_same]
      exact Or.inl (by simp [inCS])
  · intro j k hj hk
    rcases bool_eq_or j i with rfl | rfl
    · rw [getPc_setPc_same] at hj; exact absurd hj (by simp)
    · rw [Bool.not_not, getPc_setPc_same]
      exact Or.inl (by simp [inCS])
  · rcases hPhase with ⟨hfs, hpre⟩ | ⟨w, hw, hfs, hlos⟩ | ⟨w, hw, hfs, hlos⟩ | ⟨w, hw, hfs, hlos⟩
    · have hv : readMessagesFile s.fs = .arr [m] := by
        simp [hfs, readMessagesFile]
      refine Or.inr (Or.inl ⟨i, ?_, ?_, ?_⟩)
      · rw [getPc_setPc_same, hv]
      · rw [setPc_fs]; exact hfs
      · rw [getPc_setPc_not]
        rcases hpre (!i) with hk | hk | hk
        · exact Or.inl hk
        · exact absurd (by rw [hk]; simp [inCS]) hnotCS
        · exact Or.inr hk
    · rcases bool_eq_or w i with rfl | rfl
      · rw [hpc] at hw; simp at hw
      · rw [Bool.not_not] at hlos
        rcases hlos with ⟨k, hk⟩ | hk <;> rw [hpc] at hk <;> simp at hk
    · rcases bool_eq_or w i with rfl | rfl
      · rw [hpc] at hw; simp at hw
      · rw [Bool.not_not] at hlos
        rcases hlos with ⟨k, hk⟩ | hk <;> rw [hpc] at hk <;> simp at hk
    · rcases bool_eq_or w i with rfl | rfl
      · rw [hpc] at hw; simp at hw
      · have hv : readMessagesFile s.fs = .arr [] := by
          simp [hfs, readMessagesFile]
        refine Or.inr (Or.inr (Or.inr ⟨!i, ?_, ?_, ?_⟩))
        · rw [getPc_setPc_not]; exact hw
        · rw [setPc_fs]; exact hfs
        · rw [Bool.not_not, getPc_setPc_same, hv]
          exact Or.inr (Or.inr (Or.inr (Or.inl rfl)))

theorem bool_eq_not_of_ne (w i : Bool) (h : w ≠ i) : w = !i := by
  cases w <;> cases i <;> simp_all

theorem inv_cs_fields (m : Message) (s : Sys) (i : Bool)
    (f : Option QContent) (p : DPC) (h : Inv m s) (t0 : Nat)
    (hlk : s.lock = some (i, t0)) (hnotCS : ¬ inCS (getPc s (!i)))
    (hin : inCS p)
    (hph : Phase m (setPc { s with fs := f } i p)) :
    Inv m (setPc { s with fs := f } i p) := by
  obtain ⟨hOwner, hCS, hFresh, hAcq, hFail, hWait, -⟩ := h
  refine ⟨?_, ?_, ?_, ?_, ?_, ?_, hph⟩
  · intro j t hj
    rw [setPc_lock, mk_fs_lock, hlk] at hj
    simp only [Option.some.injEq, Prod.mk.injEq] at hj
    have hji : j = i := hj.1.symm
    rw [hji, getPc_setPc_same]
    exact hin
  · intro j hj
    by_cases hji : j = i
    · rw [hji]
      exact ⟨t0, by rw [setPc_lock, mk_fs_lock]; exact hlk⟩
    · rw [bool_eq_not_of_ne j i hji, getPc_setPc_not, getPc_mk_fs] at hj
      exact absurd hj hnotCS
  · intro j t hj
    rw [setPc_lock, mk_fs_lock, hlk] at hj
    simp only [Option.some.injEq, Prod.mk.injEq] at hj
    have hji : j = i := hj.1.symm
    have ht : t = t0 := hj.2.symm
    rw [hji, ht, getPc_setPc_not, getPc_mk_fs, setPc_clock, mk_fs_clock]
    exact hFresh i t0 hlk
  · intro j k hj
    by_cases hji : j = i
    · rw [hji, getPc_setPc_same] at hj
      rw [hj] at hin
      simp [inCS] at hin
    · rw [bool_eq_not_of_ne j i hji, getPc_setPc_not, getPc_mk_fs] at hj
      exact hAcq _ k hj
  · intro j hj
    by_cases hji : j = i
    · rw [hji, getPc_setPc_same] at hj
      rw [hj] at hin
      simp [inCS] at hin
    · rw [bool_eq_not_of_ne j i hji, Bool.not_not, getPc_setPc_same]
      exact Or.inl hin
  · intro j k hj hk
    by_cases hji : j = i
    · rw [hji, getPc_setPc_same] at hj
      rw [hj] at hin
      simp [inCS] at hin
    · rw [bool_eq_not_of_ne j i hji, Bool.not_not, getPc_setPc_same]
      exact Or.inl hin

theorem inv_clear (m : Message) (s : Sys) (i : Bool) (v : JsVal)
    (h : Inv m s) (hpc : getPc s i = .clearStep v) :
    Inv m (dstep s i) := by
  obtain ⟨t0, hlk⟩ := h.csOwner i (by rw [hpc]; simp [inCS])
  have hnotCS : ¬ inCS (getPc s (!i)) := by
    intro hc
    obtain ⟨t1, h1⟩ := h.csOwner (!i) hc
    rw [hlk] at h1
    simp only [Option.some.injEq, Prod.mk.injEq] at h1
    exact bool_ne_not i h1.1
  rcases h.phase with ⟨hfs, hpre⟩ | ⟨w, hw, hfs, hlos⟩ | ⟨w, hw, hfs, hlos⟩ |
    ⟨w, hw, hfs, hlos⟩
  · rcases hpre i with ⟨k, hk⟩ | hk | hk <;> rw [hpc] at hk <;> simp at hk
  · by_cases hwi : w = i
    · rw [hwi, hpc] at hw
      simp only [DPC.clearStep.injEq] at hw
      subst hw
      have hd : dstep s i =
          setPc { s with fs := some (.ok []) } i (.relStep (.arr [m])) := by
        simp [dstep, hpc, jsLenPos]
      rw [hd]
      refine inv_cs_fields m s i _ _ h t0 hlk hnotCS (by simp [inCS]) ?_
      refine Or.inr (Or.inr (Or.inl ⟨i, ?_, ?_, ?_⟩))
      · rw [getPc_setPc_same]
      · rw [setPc_fs, mk_fs_fs]
      · rw [getPc_setPc_not, getPc_mk_fs]
        rw [hwi] at hlos
        exact hlos
    · have hwo := bool_eq_not_of_ne w i hwi
      rw [hwo, Bool.not_not] at hlos
      rcases hlos with ⟨k, hk⟩ | hk <;> rw [hpc] at hk <;> simp at hk
  · by_cases hwi : w = i
    · rw [hwi, hpc] at hw; simp at hw
    · have hwo := bool_eq_not_of_ne w i hwi
      rw [hwo, Bool.not_not] at hlos
      rcases hlos with ⟨k, hk⟩ | hk <;> rw [hpc] at hk <;> simp at hk
  · by_cases hwi : w = i
    · rw [hwi, hpc] at hw; simp at hw
    · have hwo := bool_eq_not_of_ne w i hwi
      rw [hwo] at hw hlos
      rw [Bool.not_not] at hlos
      have hv : v = .arr [] := by
        rcases hlos with ⟨k, hk⟩ | hk | hk | hk | hk | hk <;>
          rw [hpc] at hk <;> simp at hk
        exact hk
      subst hv
      have hd : dstep s i = setPc s i (.relStep (.arr [])) := by
        simp [dstep, hpc, jsLenPos]
      rw [hd]
      refine inv_cs_fields m s i s.fs _ h t0 hlk hnotCS (by simp [inCS]) ?_
      refine Or.inr (Or.inr (Or.inr ⟨!i, ?_, ?_, ?_⟩))
      · rw [getPc_setPc_not, getPc_mk_fs]; exact hw
      · rw [setPc_fs, mk_fs_fs]; exact hfs
      · rw [Bool.not_not, getPc_setPc_same]
        exact Or.inr (Or.inr (Or.inr (Or.inr (Or.inl rfl))))

theorem inv_rel (m : Message) (s : Sys) (i : Bool) (v : JsVal)
    (h : Inv m s) (hpc : getPc s i = .relStep v) :
    Inv m (dstep s i) := by
  obtain ⟨t0, hlk⟩ := h.csOwner i (by rw [hpc]; simp [inCS])
  have hnotCS : ¬ inCS (getPc s (!i)) := by
    intro hc
    obtain ⟨t1, h1⟩ := h.csOwner (!i) hc
    rw [hlk] at h1
    simp only [Option.some.injEq, Prod.mk.injEq] at h1
    exact bool_ne_not i h1.1
  have hd : dstep s i = setPc { s with lock := none } i (.finished v) := by
    simp [dstep, hpc]
  rw [hd]
  have hph : Phase m (setPc { s with lock := none } i (.finished v)) := by
    rcases h.phase with ⟨hfs, hpre⟩ | ⟨w, hw, hfs, hlos⟩ | ⟨w, hw, hfs, hlos⟩ |
      ⟨w, hw, hfs, hlos⟩
    · rcases hpre i with ⟨k, hk⟩ | hk | hk <;> rw [hpc] at hk <;> simp at hk
    · by_cases hwi : w = i
      · rw [hwi, hpc] at hw; simp at hw
      · have hwo := bool_eq_not_of_ne w i hwi
        rw [hwo, Bool.not_not] at hlos
        rcases hlos with ⟨k, hk⟩ | hk <;> rw [hpc] at hk <;> simp at hk
    · by_cases hwi : w = i
      · rw [hwi, hpc] at hw
        simp only [DPC.relStep.injEq] at hw
        subst hw
        refine Or.inr (Or.inr (Or.inr ⟨i, ?_, ?_, ?_⟩))
        · rw [getPc_setPc_same]
        · rw [setPc_fs, mk_lock_fs]; exact hfs
        · rw [getPc_setPc_not, getPc_mk_lock]
          rw [hwi] at hlos
          rcases hlos with ⟨k, hk⟩ | hk
          · exact Or.inl ⟨k, hk⟩
          · exact Or.inr (Or.inl hk)
      · have hwo := bool_eq_not_of_ne w i hwi
        rw [hwo, Bool.not_not] at hlos
        rcases hlos with ⟨k, hk⟩ | hk <;> rw [hpc] at hk <;> simp at hk
    · by_cases hwi : w = i
      · rw [hwi, hpc] at hw; simp at hw
      · have hwo := bool_eq_not_of_ne w i hwi
        rw [hwo] at hw hlos
        rw [Bool.not_not] at hlos
        have hv : v = .arr [] := by
          rcases hlos with ⟨k, hk⟩ | hk | hk | hk | hk | hk <;>
            rw [hpc] at hk <;> simp at hk
          exact hk
        subst hv
        refine Or.inr (Or.inr (Or.inr ⟨!i, ?_, ?_, ?_⟩))
        · rw [getPc_setPc_not, getPc_mk_lock]; exact hw
        · rw [setPc_fs, mk_lock_fs]; exact hfs
        · rw [Bool.not_not, getPc_setPc_same]
          exact Or.inr (Or.inr (Or.inr (Or.inr (Or.inr rfl))))
  obtain ⟨hOwner, hCS, hFresh, hAcq, hFail, hWait, -⟩ := h
  refine ⟨?_, ?_, ?_, ?_, ?_, ?_, hph⟩
  · intro j t hj
    rw [setPc_lock, mk_lock_lock] at hj
    simp at hj
  · intro j hj
    by_cases hji : j = i
    · rw [hji, getPc_setPc_same] at hj
      simp [inCS] at hj
    · rw [bool_eq_not_of_ne j i hji, getPc_setPc_not, getPc_mk_lock] at hj
      exact absurd hj hnotCS
  · intro j t hj
    rw [setPc_lock, mk_lock_lock] at hj
    simp at hj
  · intro j k hj
    by_cases hji : j = i
    · rw [hji, getPc_setPc_same] at hj
      simp at hj
    · rw [bool_eq_not_of_ne j i hji, getPc_setPc_not, getPc_mk_lock] at hj
      exact hAcq _ k hj
  · intro j hj
    by_cases hji : j = i
    · rw [hji, getPc_setPc_same] at hj
      simp at hj
    · rw [bool_eq_not_of_ne j i hji, Bool.not_not, getPc_setPc_same]
      exact Or.inr ⟨v, rfl⟩
  · intro j k hj hk
    by_cases hji : j = i
    · rw [hji, getPc_setPc_same] at hj
      simp at hj
    · rw [bool_eq_not_of_ne j i hji, Bool.not_not, getPc_setPc_same]
      exact Or.inr ⟨v, rfl⟩

theorem inv_step (m : Message) (s : Sys) (i : Bool) (h : Inv m s) :
    Inv m (dstep s i) := by
  cases hpc : getPc s i with
  | acq k =>
    cases k with
    | zero =>
      have hd : dstep s i = setPc s i .lockFailed := by simp [dstep, hpc]
      rw [hd]
      exact inv_acq0 m s i h hpc
    | succ n => exact inv_acq_succ m s i n h hpc
  | readStep => exact inv_read m s i h hpc
  | clearStep v => exact inv_clear m s i v h hpc
  | relStep v => exact inv_rel m s i v h hpc
  | finished v =>
    have hd : dstep s i = s := by simp [dstep, hpc]
    rw [hd]; exact h
  | lockFailed =>
    have hd : dstep s i = s := by simp [dstep, hpc]
    rw [hd]; exact h

theorem inv_foldl (m : Message) :
    ∀ (sched : List Bool) (s : Sys), Inv m s →
      Inv m (List.foldl dstep s sched)
  | [], _, h => h
  | i :: L, s, h => inv_foldl m L (dstep s i) (inv_step m s i h)

theorem inv_run (m : Message) (sched : List Bool) :
    Inv m (runSched (dinit m) sched) :=
  inv_foldl m sched (dinit m) (inv_init m)

theorem terminal_outcome (m : Message) (s : Sys) (hInv : Inv m s)
    (hF : isTerminal (getPc s false) = true)
    (hT : isTerminal (getPc s true) = true) :
    ∃ w, getPc s w = .finished (.arr [m]) ∧
      (getPc s (!w) = .lockFailed ∨ getPc s (!w) = .finished (.arr [])) := by
  have hterm : ∀ j : Bool, isTerminal (getPc s j) = true := by
    intro j
    cases j with
    | false => exact hF
    | true => exact hT
  rcases hInv.phase with ⟨hfs, hpre⟩ | ⟨w, hw, hfs, hlos⟩ | ⟨w, hw, hfs, hlos⟩ |
    ⟨w, hw, hfs, hlos⟩
  · have hLF : ∀ j : Bool, getPc s j = .lockFailed := by
      intro j
      rcases hpre j with ⟨k, hk⟩ | hk | hk
      · have := hterm j; rw [hk] at this; simp [isTerminal] at this
      · have := hterm j; rw [hk] at this; simp [isTerminal] at this
      · exact hk
    have hcontra := hInv.failedWait false (hLF false)
    simp only [Bool.not_false] at hcontra
    rcases hcontra with hc | ⟨v, hv⟩
    · rw [hLF true] at hc; simp [inCS] at hc
    · rw [hLF true] at hv; simp at hv
  · have := hterm w; rw [hw] at this; simp [isTerminal] at this
  · have := hterm w; rw [hw] at this; simp [isTerminal] at this
  · refine ⟨w, hw, ?_⟩
    have ht := hterm (!w)
    rcases hlos with ⟨k, hk⟩ | hk | hk | hk | hk | hk
    · rw [hk] at ht; simp [isTerminal] at ht
    · exact Or.inl hk
    · rw [hk] at ht; simp [isTerminal] at ht
    · rw [hk] at ht; simp [isTerminal] at ht
    · rw [hk] at ht; simp [isTerminal] at ht
    · exact Or.inr hk

/-- C3: for every interleaving of two concurrent `getAndClearMessages`
calls racing against a queue containing exactly one message after which
both calls have completed, one call — the one that acquired the lock
first — returns and clears the message while the other returns an empty
sequence (or throws `lockUnavailable`, returning no sequence at all, if
the winner's critical section starved its whole retry budget); the union
of the returned sequences contains the message exactly once. -/
theorem concurrent_drains_once (m : Message) (sched : List Bool)
    (hF : isTerminal (getPc (runSched (dinit m) sched) false) = true)
    (hT : isTerminal (getPc (runSched (dinit m) sched) true) = true) :
    (∃ w, getPc (runSched (dinit m) sched) w = .finished (.arr [m]) ∧
      (getPc (runSched (dinit m) sched) (!w) = .lockFailed ∨
        getPc (runSched (dinit m) sched) (!w) = .finished (.arr []))) ∧
    (resultMsgs (getPc (runSched (dinit m) sched) false) ++
      resultMsgs (getPc (runSched (dinit m) sched) true)).count m = 1 := by
  have hout := terminal_outcome m _ (inv_run m sched) hF hT
  refine ⟨hout, ?_⟩
  obtain ⟨w, hw, hl⟩ := hout
  cases w with
  | false =>
    simp only [Bool.not_false] at hl
    rcases hl with hl | hl <;>
      simp [resultMsgs, hw, hl, List.count_cons, List.count_nil]
  | true =>
    simp only [Bool.not_true] at hl
    rcases hl with hl | hl <;>
      simp [resultMsgs, hw, hl, List.count_cons, List.count_nil]

/-- C3 witness: the schedule running the first process to completion and
then the second; the first drains the message, the second gets empty. -/
theorem concurrent_drains_once_witness :
    (isTerminal (getPc (runSched (dinit ⟨"Test", 0⟩)
        [false, false, false, false, true, true, true, true]) false) =
      true) ∧
    (isTerminal (getPc (runSched (dinit ⟨"Test", 0⟩)
        [false, false, false, false, true, true, true, true]) true) =
      true) ∧
    ((∃ w, getPc (runSched (dinit ⟨"Test", 0⟩)
          [false, false, false, false, true, true, true, true]) w =
        .finished (.arr [⟨"Test", 0⟩]) ∧
      (getPc (runSched (dinit ⟨"Test", 0⟩)
          [false, false, false, false, true, true, true, true]) (!w) =
        .lockFailed ∨
       getPc (runSched (dinit ⟨"Test", 0⟩)
          [false, false, false, false, true, true, true, true]) (!w) =
        .finished (.arr []))) ∧
    (resultMsgs (getPc (runSched (dinit ⟨"Test", 0⟩)
        [false, false, false, false, true, true, true, true]) false) ++
      resultMsgs (getPc (runSched (dinit ⟨"Test", 0⟩)
        [false, false, false, false, true, true, true, true]) true)).count
      ⟨"Test", 0⟩ = 1) :=
  ⟨by decide, by decide,
    concurrent_drains_once ⟨"Test", 0⟩
      [false, false, false, false, true, true, true, true]
      (by decide) (by decide)⟩

end ClaudeSidecar